import Mathlib

/-!
# Verification of the giftp git-backed FTP driver (`driver.go`)

Shallow embedding of `GitDriver` from `driver.go` of mochja/giftp.

Modelling conventions, each matching the collaborator boundary of the code:

* The billy worktree filesystem (reached through `git.PlainOpen` +
  `r.Worktree()` + `tree.Filesystem`) is a finite association list from
  cleaned path-segment lists to entries (`FS`).  billy's chroot filesystem
  resolves every path — absolute or relative — against the repository root
  after a `filepath.Clean`; `cleanSegs` performs that cleaning at segment
  level ("" and "." dropped, ".." pops, clamped at the root).
* Bytes are `List Nat`; a reader (`io.Reader` argument of `PutFile`,
  returned handle of `GetFile`) is the byte list it yields.  `io.Copy`
  is total on such pure readers and returns the number of bytes copied.
* `git.PlainOpen` and `r.Worktree()` never fail in the model: the driver
  is constructed over an existing repository and every method receives
  the opened repository state `Repo` explicitly.
* A commit record is represented by the list of staged relative paths it
  captured; `Repo.commits` is the commit log, so the commit count is its
  length.  `tree.Commit` in go-git v4 does not fail on the happy path
  modelled here (fixed author, fixed message, both irrelevant to the
  claims).
* `filepath.Rel("/", p)` (the staging-path computation in `driver.add`)
  fails exactly when `p` is not absolute; on an absolute `p` it returns
  the cleaned path without the leading slash ("." for the root).
* The permission collaborator `server.Perm` is a record of three
  path-keyed fallible lookups.
-/

set_option autoImplicit false

namespace Giftp

/-- Bytes of a file / of an input stream. -/
abbrev Bytes := List Nat

/-- An entry of the worktree filesystem: a directory or a regular file.
`bmode` is the raw mode the backend reports for the entry in `Stat`
(`info.Mode()` in Go); it is opaque data for the driver. -/
inductive Entry where
  | dir (bmode : Nat)
  | file (bmode : Nat) (content : Bytes)
  deriving Repr, DecidableEq

namespace Entry

def isDir : Entry → Bool
  | dir _ => true
  | file _ _ => false

def size : Entry → Nat
  | dir _ => 0
  | file _ c => c.length

def bmode : Entry → Nat
  | dir m => m
  | file m _ => m

end Entry

/-- The worktree filesystem: association list from cleaned segment lists
to entries (first match wins, as in a map). -/
abbrev FS := List (List String × Entry)

/-- One step of `filepath.Clean` at segment level: empty and "."
segments vanish, ".." removes the last kept segment (clamped at the
root, as billy's chroot does). -/
def cleanStep (acc : List String) (s : String) : List String :=
  if s = "" ∨ s = "." then acc
  else if s = ".." then acc.dropLast
  else acc ++ [s]

/-- Clean a raw segment list into the canonical root-relative key used
by the backend filesystem. -/
def cleanSegs (segs : List String) : List String :=
  segs.foldl cleanStep []

/-- Model of `strings.Split(path, "/")` over the characters: the segment read so
far is `acc`; a slash closes it. -/
def splitPathAux : List Char → String → List String
  | [], acc => [acc]
  | c :: cs, acc =>
    if c = '/' then acc :: splitPathAux cs ""
    else splitPathAux cs (acc.push c)

/-- Model of `strings.Split(path, "/")`: the raw segments of a virtual path
(empty segments included, as in Go). -/
def splitPath (path : String) : List String :=
  splitPathAux path.data ""

/-- Does the path begin with a slash?  (`filepath.Rel("/", p)` succeeds
exactly for such `p`.) -/
def isAbs (p : String) : Bool :=
  match p.data with
  | '/' :: _ => true
  | _ => false

deriving instance DecidableEq for Except

/-- Look up a key in the filesystem (first match). -/
def fsFind (fs : FS) (key : List String) : Option Entry :=
  (fs.find? (fun kv => kv.1 = key)).map Prod.snd

/-- The raw stat record the backend returns (`os.FileInfo`). -/
structure BackendInfo where
  name : String
  size : Nat
  mode : Nat
  isDir : Bool
  deriving Repr, DecidableEq

/-- The backend stat record of an entry stored under `key`. -/
def infoOf (key : List String) (e : Entry) : BackendInfo :=
  ⟨key.getLastD "/", e.size, e.bmode, e.isDir⟩

/-- Error text for a missing path (what `os.IsNotExist` recognises). -/
def notExistErr : String := "file does not exist"

/-- Model of `tree.Filesystem.Stat` / `.Lstat` (no symlinks are modelled, so the
two coincide): clean the path, look it up; the root itself always stats
as a directory. -/
def fsStat (fs : FS) (segs : List String) : Except String BackendInfo :=
  let key := cleanSegs segs
  if key = [] then .ok ⟨"/", 0, 0, true⟩
  else
    match fsFind fs key with
    | some e => .ok (infoOf key e)
    | none => .error notExistErr

/-- Is there a directory at `key` (the root counts)? -/
def isDirAt (fs : FS) (key : List String) : Bool :=
  key = [] ||
    match fsFind fs key with
    | some (.dir _) => true
    | _ => false

/-- Model of `tree.Filesystem.ReadDir`: the immediate children of a directory, in
the backend's enumeration order (the storage order of `fs`). -/
def fsReadDir (fs : FS) (segs : List String) : Except String (List BackendInfo) :=
  let key := cleanSegs segs
  if isDirAt fs key then
    .ok (fs.filterMap (fun kv =>
      if kv.1 ≠ [] ∧ kv.1.dropLast = key then some (infoOf kv.1 kv.2) else none))
  else
    match fsFind fs key with
    | some _ => .error "not a directory"
    | none => .error notExistErr

/-- Remove every binding of `key`. -/
def fsErase (fs : FS) (key : List String) : FS :=
  fs.filter (fun kv => kv.1 ≠ key)

/-- Bind `key` to `e`, replacing any previous binding. -/
def fsInsert (fs : FS) (key : List String) (e : Entry) : FS :=
  fsErase fs key ++ [(key, e)]

/-- Does the directory at `key` have at least one immediate child? -/
def hasChild (fs : FS) (key : List String) : Bool :=
  fs.any (fun kv => kv.1 ≠ [] ∧ kv.1.dropLast = key)

/-- Model of `tree.Filesystem.Remove` (`os.Remove`): removes a file or an empty
directory; fails on the root, on a missing path, and on a non-empty
directory. -/
def fsRemove (fs : FS) (segs : List String) : Except String FS :=
  let key := cleanSegs segs
  if key = [] then .error "invalid argument"
  else
    match fsFind fs key with
    | none => .error notExistErr
    | some (.file _ _) => .ok (fsErase fs key)
    | some (.dir _) =>
      if hasChild fs key then .error "directory not empty"
      else .ok (fsErase fs key)

/-- Model of `os.MkdirAll` walking the chain of ancestors below `base`: create
each missing directory, fail if an existing link is a regular file. -/
def mkdirChain (fs : FS) (base : List String) : List String → Except String FS
  | [] => .ok fs
  | s :: rest =>
    let p := base ++ [s]
    match fsFind fs p with
    | some (.file _ _) => .error "not a directory"
    | some (.dir _) => mkdirChain fs p rest
    | none => mkdirChain (fs ++ [(p, .dir 0)]) p rest

/-- Model of `tree.Filesystem.MkdirAll(path, perm)` (the permission argument is
irrelevant to the claims). -/
def fsMkdirAll (fs : FS) (segs : List String) : Except String FS :=
  mkdirChain fs [] (cleanSegs segs)

/-- Model of `tree.Filesystem.Create` (billy: `OpenFile` with
`O_RDWR|O_CREATE|O_TRUNC`, creating missing parent directories first):
yields an empty regular file at the path; fails if the path is the root
or an existing directory, or if a parent is a regular file. -/
def fsCreate (fs : FS) (segs : List String) : Except String FS :=
  let key := cleanSegs segs
  if key = [] then .error "is a directory"
  else
    match mkdirChain fs [] key.dropLast with
    | .error e => .error e
    | .ok fs1 =>
      match fsFind fs1 key with
      | some (.dir _) => .error "is a directory"
      | _ => .ok (fsInsert fs1 key (.file 0 []))

/-- Model of `io.Copy` into a freshly created (empty) file: the file now holds
the stream's bytes. -/
def fsWriteAll (fs : FS) (segs : List String) (data : Bytes) : FS :=
  fsInsert fs (cleanSegs segs) (.file 0 data)

/-- Model of `tree.Filesystem.OpenFile(path, O_APPEND|O_RDWR, 0660)` followed by
`Seek(0, SEEK_END)` and `io.Copy`: append `data` to an existing regular
file. Fails if the path is missing (no `O_CREATE`) or is a directory. -/
def fsAppend (fs : FS) (segs : List String) (data : Bytes) : Except String FS :=
  let key := cleanSegs segs
  match fsFind fs key with
  | none => .error notExistErr
  | some (.dir _) => .error "is a directory"
  | some (.file m c) => .ok (fsInsert fs key (.file m (c ++ data)))

/-- Model of `tree.Filesystem.Open` (read-only): the readable byte stream of the
entry (a directory opens but yields no readable bytes). -/
def fsOpen (fs : FS) (segs : List String) : Except String Bytes :=
  let key := cleanSegs segs
  if key = [] then .ok []
  else
    match fsFind fs key with
    | none => .error notExistErr
    | some (.dir _) => .ok []
    | some (.file _ c) => .ok c

/-- Model of `tree.Filesystem.Rename` (billy osfs: create the destination's
parent directories, then `os.Rename`): moves the source entry — and, for
a directory, everything below it — to the destination, replacing a
destination file; fails on a missing source or a directory destination. -/
def fsRename (fs : FS) (fromSegs toSegs : List String) : Except String FS :=
  let kf := cleanSegs fromSegs
  let kt := cleanSegs toSegs
  if kf = [] ∨ kt = [] then .error "invalid argument"
  else
    match fsFind fs kf with
    | none => .error notExistErr
    | some _ =>
      match mkdirChain fs [] kt.dropLast with
      | .error e => .error e
      | .ok fs1 =>
        match fsFind fs1 kt with
        | some (.dir _) => .error "file exists"
        | _ =>
          .ok ((fsErase fs1 kt).map (fun kv =>
            if kv.1.take kf.length = kf then (kt ++ kv.1.drop kf.length, kv.2) else kv))

/-! ## Repository state, staging and commit -/

/-- The opened repository: the worktree filesystem, the staging area
(`git add`ed relative paths, in staging order) and the commit log.  A
commit record is represented by the staged paths it captured, so the
commit count of the repository is `commits.length`. -/
structure Repo where
  fs : FS
  staged : List String
  commits : List (List String)
  deriving Repr, DecidableEq

/-- The `server.Perm` collaborator: path-keyed mode / owner / group
lookups, each fallible. -/
structure Perm where
  getMode : String → Except String Nat
  getOwner : String → Except String String
  getGroup : String → Except String String

/-- Model of `GitDriver`: the root path (consumed by `git.PlainOpen`, which the
model replaces by handing each method the opened `Repo`) and the
permission collaborator. -/
structure GitDriver where
  rootPath : String
  perm : Perm

/-- Model of `os.ModeDir`: bit 31 of a Go `os.FileMode`. -/
def osModeDir : Nat := 2 ^ 31

/-- The synthesized metadata the driver returns (`FileInfo` in Go): the
backend stat record plus the overriding mode and the owner and group
names. -/
structure FileInfo where
  info : BackendInfo
  mode : Nat
  owner : String
  group : String
  deriving Repr, DecidableEq

/-- The cleaned path without its leading slash, as `filepath.Rel("/", ·)`
returns it for an absolute path ("." for the root itself). -/
def relOf (p : String) : String :=
  match cleanSegs (splitPath p) with
  | [] => "."
  | segs => String.intercalate "/" segs

/-- Model of `filepath.Rel("/", p)`: fails unless `p` is absolute; on an absolute
path returns the cleaned path without the leading slash. -/
def relFromRoot (p : String) : Except String String :=
  if isAbs p then .ok (relOf p)
  else .error ("Rel: cannot make " ++ p ++ " relative to /")

namespace GitDriver

/-- Model of `driver.add(destPath, r)`: compute the root-relative staging path
with `filepath.Rel("/", destPath)` — failing on a non-absolute path —
then `tree.Add` it. -/
def add (destPath : String) (r : Repo) : Except String Repo :=
  match relFromRoot destPath with
  | .error e => .error e
  | .ok addPath => .ok { r with staged := r.staged ++ [addPath] }

/-- Model of `driver.commit(r)`: `tree.Commit` with the fixed author and message;
records a commit over everything currently staged and clears the staging
area. -/
def commit (r : Repo) : Repo :=
  { r with staged := [], commits := r.commits ++ [r.staged] }

/-- The block every mutating method ends with, verbatim in the Go code:
`driver.add(path, r)` — returning its error and leaving the repository
as it is when staging fails — followed by `driver.commit(r)`. -/
def stageCommit (path : String) (r2 : Repo) : Except String Unit × Repo :=
  match add path r2 with
  | .error e => (.error e, r2)
  | .ok r3 => (.ok (), commit r3)

/-! Each driver method takes and returns the repository state explicitly
(the Go methods reach it through `git.PlainOpen(driver.RootPath)`); a
method returns the state it leaves behind even when it fails, since
nothing is rolled back. -/

/-- Model of `GitDriver.ChangeDir`. -/
def ChangeDir (path : String) (r : Repo) : Except String Unit × Repo :=
  match fsStat r.fs (splitPath path) with
  | .error e => (.error e, r)
  | .ok f =>
    if f.isDir then (.ok (), r)
    else (.error "Not a directory", r)

/-- Model of `GitDriver.Stat`: backend stat, then mode / owner / group from the
permission collaborator, OR-ing `os.ModeDir` into the mode when the
backend reports a directory. -/
def Stat (d : GitDriver) (path : String) (r : Repo) : Except String FileInfo × Repo :=
  match fsStat r.fs (splitPath path) with
  | .error e => (.error e, r)
  | .ok f =>
    match d.perm.getMode path with
    | .error e => (.error e, r)
    | .ok mode0 =>
      let mode := if f.isDir then Nat.lor mode0 osModeDir else mode0
      match d.perm.getOwner path with
      | .error e => (.error e, r)
      | .ok owner =>
        match d.perm.getGroup path with
        | .error e => (.error e, r)
        | .ok group => (.ok ⟨f, mode, owner, group⟩, r)

/-- The per-child stat of the `ListDir` loop:
`tree.Filesystem.Stat(filepath.Join(append(paths, file.Name())...))`
with `paths = strings.Split(path, "/")`.  `filepath.Join` cleans the
joined segments and the backend cleans again; `fsStat` cleans the
concatenated raw segments, which is the composition of the two. -/
def statChild (fs : FS) (path name : String) : Except String BackendInfo :=
  fsStat fs (splitPath path ++ [name])

/-- The body of the `ListDir` loop.  The Go callback is an arbitrary
effectful closure `func(FileInfo) error`; it is embedded as a state
transformer `FileInfo → σ → Except String σ` over the closure's state
`σ`. -/
def listLoop {σ : Type} (d : GitDriver) (path : String) (fs : FS)
    (cb : FileInfo → σ → Except String σ) :
    List BackendInfo → σ → Except String σ
  | [], s => .ok s
  | f :: rest, s =>
    match statChild fs path f.name with
    | .error e => .error e
    | .ok info =>
      let mode := if info.isDir then Nat.lor info.mode osModeDir else info.mode
      match d.perm.getOwner path with
      | .error e => .error e
      | .ok owner =>
        match d.perm.getGroup path with
        | .error e => .error e
        | .ok group =>
          match cb ⟨info, mode, owner, group⟩ s with
          | .error e => .error e
          | .ok s2 => listLoop d path fs cb rest s2

/-- Model of `GitDriver.ListDir`. -/
def ListDir {σ : Type} (d : GitDriver) (path : String)
    (cb : FileInfo → σ → Except String σ) (s : σ) (r : Repo) :
    Except String σ × Repo :=
  match fsReadDir r.fs (splitPath path) with
  | .error e => (.error e, r)
  | .ok files => (listLoop d path r.fs cb files s, r)

/-- Model of `GitDriver.DeleteDir`: `Lstat`, require a directory, `Remove`,
stage, commit. -/
def DeleteDir (path : String) (r : Repo) : Except String Unit × Repo :=
  match fsStat r.fs (splitPath path) with
  | .error e => (.error e, r)
  | .ok f =>
    if ¬f.isDir then (.error "Not a directory", r)
    else
      match fsRemove r.fs (splitPath path) with
      | .error e => (.error e, r)
      | .ok fs2 => stageCommit path { r with fs := fs2 }

/-- Model of `GitDriver.DeleteFile`: `Lstat`, require a non-directory, `Remove`,
stage, commit. -/
def DeleteFile (path : String) (r : Repo) : Except String Unit × Repo :=
  match fsStat r.fs (splitPath path) with
  | .error e => (.error e, r)
  | .ok f =>
    if f.isDir then (.error "Not a file", r)
    else
      match fsRemove r.fs (splitPath path) with
      | .error e => (.error e, r)
      | .ok fs2 => stageCommit path { r with fs := fs2 }

/-- Model of `GitDriver.Rename`: backend rename, stage the source path, stage the
destination path, commit. -/
def Rename (fromPath toPath : String) (r : Repo) : Except String Unit × Repo :=
  match fsRename r.fs (splitPath fromPath) (splitPath toPath) with
  | .error e => (.error e, r)
  | .ok fs2 =>
    let r2 : Repo := { r with fs := fs2 }
    match add fromPath r2 with
    | .error e => (.error e, r2)
    | .ok r3 => stageCommit toPath r3

/-- Model of `GitDriver.MakeDir`: `MkdirAll`, stage, commit. -/
def MakeDir (path : String) (r : Repo) : Except String Unit × Repo :=
  match fsMkdirAll r.fs (splitPath path) with
  | .error e => (.error e, r)
  | .ok fs2 => stageCommit path { r with fs := fs2 }

/-- Model of `GitDriver.GetFile`: backend stat for the size, open, seek to
`offset` (the seek error is ignored, as in the Go code); returns the
total size and the bytes readable from `offset` on.  Read-only: no
staging, no commit. -/
def GetFile (path : String) (offset : Nat) (r : Repo) :
    Except String (Nat × Bytes) × Repo :=
  match fsStat r.fs (splitPath path) with
  | .error e => (.error e, r)
  | .ok info =>
    match fsOpen r.fs (splitPath path) with
    | .error e => (.error e, r)
    | .ok content => (.ok (info.size, content.drop offset), r)

/-- The tail of `PutFile` after the existence check, mirroring the Go
control flow from the `appendData && !isExist` degradation on: on the
non-append path remove an existing target, create the file and copy the
stream into it; on the append path open-append and copy; in both cases
stage and commit and return the number of bytes copied. -/
def putFileBody (destPath : String) (data : Bytes) (isExist appendData : Bool)
    (r : Repo) : Except String Nat × Repo :=
  let appendData := appendData && isExist
  if ¬appendData then
    let removed : Except String FS :=
      if isExist then fsRemove r.fs (splitPath destPath) else .ok r.fs
    match removed with
    | .error e => (.error e, r)
    | .ok fs1 =>
      match fsCreate fs1 (splitPath destPath) with
      | .error e => (.error e, { r with fs := fs1 })
      | .ok fs2 =>
        let fs3 := fsWriteAll fs2 (splitPath destPath) data
        match stageCommit destPath { r with fs := fs3 } with
        | (.error e, rr) => (.error e, rr)
        | (.ok _, rr) => (.ok data.length, rr)
  else
    match fsAppend r.fs (splitPath destPath) data with
    | .error e => (.error e, r)
    | .ok fs2 =>
      match stageCommit destPath { r with fs := fs2 } with
      | (.error e, rr) => (.error e, rr)
      | (.ok _, rr) => (.ok data.length, rr)

/-- Model of `GitDriver.PutFile`: `Lstat` the target — an existing directory is a
name collision; a missing target means `isExist = false` (the model's
only stat failure is not-exist, which `os.IsNotExist` recognises) — then
`putFileBody`. -/
def PutFile (destPath : String) (data : Bytes) (appendData : Bool)
    (r : Repo) : Except String Nat × Repo :=
  match fsStat r.fs (splitPath destPath) with
  | .ok f =>
    if f.isDir then (.error "A dir has the same name", r)
    else putFileBody destPath data true appendData r
  | .error _ => putFileBody destPath data false appendData r

end GitDriver

/-! ## Specification-side helpers for the `ListDir` theorems -/

/-- Threading an effectful callback through a list of entries, invoking
it once per entry in order and stopping at its first error: the
specification of what `ListDir`'s loop does with the callback. -/
def cbFold {σ : Type} (cb : FileInfo → σ → Except String σ) :
    List FileInfo → σ → Except String σ
  | [], s => .ok s
  | fi :: rest, s =>
    match cb fi s with
    | .error e => .error e
    | .ok s2 => cbFold cb rest s2

/-- The per-child stats of a directory listing, in order; errors if any
child stat errors. -/
def statsOf (fs : FS) (path : String) : List BackendInfo → Except String (List BackendInfo)
  | [] => .ok []
  | f :: rest =>
    match GitDriver.statChild fs path f.name with
    | .error e => .error e
    | .ok i =>
      match statsOf fs path rest with
      | .error e => .error e
      | .ok is => .ok (i :: is)

/-- The metadata record the `ListDir` loop hands to the callback for a
child whose backend stat is `info`, under owner and group `o`, `g`. -/
def mkInfo (info : BackendInfo) (o g : String) : FileInfo :=
  ⟨info, if info.isDir then Nat.lor info.mode osModeDir else info.mode, o, g⟩

/-! ## Basic lemmas about the filesystem map -/

theorem fsFind_cons (kv : List String × Entry) (fs : FS) (key : List String) :
    fsFind (kv :: fs) key = if kv.1 = key then some kv.2 else fsFind fs key := by
  by_cases h : kv.1 = key <;> simp [fsFind, List.find?_cons, h]

theorem fsFind_append (fs1 fs2 : FS) (key : List String) :
    fsFind (fs1 ++ fs2) key = ((fsFind fs1 key).or (fsFind fs2 key)) := by
  simp only [fsFind, List.find?_append]
  cases List.find? (fun kv => decide (kv.1 = key)) fs1 <;> simp

theorem fsFind_erase_self (fs : FS) (key : List String) :
    fsFind (fsErase fs key) key = none := by
  induction fs with
  | nil => rfl
  | cons kv t ih =>
    rw [fsErase, List.filter_cons]
    rw [fsErase] at ih
    by_cases h : kv.1 = key
    · simpa [h] using ih
    · simpa [h, fsFind_cons] using ih

theorem fsFind_erase_ne (fs : FS) (k k' : List String) (h : k ≠ k') :
    fsFind (fsErase fs k') k = fsFind fs k := by
  induction fs with
  | nil => rfl
  | cons kv t ih =>
    rw [fsErase, List.filter_cons]
    rw [fsErase] at ih
    by_cases hk : kv.1 = k'
    · have hkk : kv.1 ≠ k := fun hh => h (hh.symm.trans hk)
      rw [if_neg (by simp [hk])]
      rw [fsFind_cons, if_neg hkk]
      exact ih
    · rw [if_pos (by simp [hk])]
      rw [fsFind_cons, fsFind_cons, ih]

theorem fsFind_insert_self (fs : FS) (key : List String) (e : Entry) :
    fsFind (fsInsert fs key e) key = some e := by
  rw [fsInsert, fsFind_append, fsFind_erase_self]
  simp [fsFind_cons]

theorem fsErase_of_find_none (fs : FS) (key : List String)
    (h : fsFind fs key = none) : fsErase fs key = fs := by
  induction fs with
  | nil => rfl
  | cons kv t ih =>
    rw [fsFind_cons] at h
    by_cases hk : kv.1 = key
    · rw [if_pos hk] at h
      exact absurd h (by simp)
    · rw [if_neg hk] at h
      have ht := ih h
      rw [fsErase] at ht
      rw [fsErase, List.filter_cons, if_pos (by simp [hk]), ht]

/-! ## Staging and commit lemmas -/

theorem relFromRoot_abs (p : String) (h : isAbs p) :
    relFromRoot p = .ok (relOf p) := by
  rw [relFromRoot, if_pos h]

theorem relFromRoot_rel (p : String) (h : ¬ isAbs p) :
    relFromRoot p = .error ("Rel: cannot make " ++ p ++ " relative to /") := by
  rw [relFromRoot, if_neg h]

theorem stageCommit_abs (p : String) (r2 : Repo) (h : isAbs p) :
    GitDriver.stageCommit p r2 =
      (.ok (), ⟨r2.fs, [], r2.commits ++ [r2.staged ++ [relOf p]]⟩) := by
  simp only [GitDriver.stageCommit, GitDriver.add, relFromRoot_abs p h, GitDriver.commit]

theorem stageCommit_rel (p : String) (r2 : Repo) (h : ¬ isAbs p) :
    GitDriver.stageCommit p r2 =
      (.error ("Rel: cannot make " ++ p ++ " relative to /"), r2) := by
  simp only [GitDriver.stageCommit, GitDriver.add, relFromRoot_rel p h]

/-- Either the staging path is computable and the block commits, or it
is not and the block fails leaving the repository as it was. -/
theorem stageCommit_cases (p : String) (r2 : Repo) :
    GitDriver.stageCommit p r2 =
        (.ok (), ⟨r2.fs, [], r2.commits ++ [r2.staged ++ [relOf p]]⟩) ∨
      GitDriver.stageCommit p r2 =
        (.error ("Rel: cannot make " ++ p ++ " relative to /"), r2) := by
  by_cases h : isAbs p
  · exact Or.inl (stageCommit_abs p r2 h)
  · exact Or.inr (stageCommit_rel p r2 h)

/-! ## Characterization of each mutating operation's outcome -/

theorem MakeDir_ok (p : String) (r : Repo)
    (h : (GitDriver.MakeDir p r).1 = .ok ()) :
    ∃ fs2, fsMkdirAll r.fs (splitPath p) = .ok fs2 ∧
      (GitDriver.MakeDir p r).2 = ⟨fs2, [], r.commits ++ [r.staged ++ [relOf p]]⟩ := by
  cases hmk : fsMkdirAll r.fs (splitPath p) with
  | error e => simp [GitDriver.MakeDir, hmk] at h
  | ok fs2 =>
    refine ⟨fs2, rfl, ?_⟩
    rcases stageCommit_cases p { r with fs := fs2 } with hc | hc <;>
      simp_all [GitDriver.MakeDir, hmk, hc]

theorem MakeDir_err (p : String) (r : Repo) (e : String)
    (h : (GitDriver.MakeDir p r).1 = .error e) :
    (GitDriver.MakeDir p r).2.commits = r.commits := by
  cases hmk : fsMkdirAll r.fs (splitPath p) with
  | error e2 => simp [GitDriver.MakeDir, hmk]
  | ok fs2 =>
    rcases stageCommit_cases p { r with fs := fs2 } with hc | hc <;>
      simp_all [GitDriver.MakeDir, hmk, hc]

theorem DeleteDir_ok (p : String) (r : Repo)
    (h : (GitDriver.DeleteDir p r).1 = .ok ()) :
    ∃ fs2, fsRemove r.fs (splitPath p) = .ok fs2 ∧
      (GitDriver.DeleteDir p r).2 = ⟨fs2, [], r.commits ++ [r.staged ++ [relOf p]]⟩ := by
  cases hst : fsStat r.fs (splitPath p) with
  | error e => simp [GitDriver.DeleteDir, hst] at h
  | ok f =>
    by_cases hd : f.isDir
    · cases hrm : fsRemove r.fs (splitPath p) with
      | error e => simp [GitDriver.DeleteDir, hst, hd, hrm] at h
      | ok fs2 =>
        refine ⟨fs2, rfl, ?_⟩
        rcases stageCommit_cases p { r with fs := fs2 } with hc | hc <;>
          simp_all [GitDriver.DeleteDir, hst, hd, hrm, hc]
    · simp [GitDriver.DeleteDir, hst, hd] at h

theorem DeleteDir_err (p : String) (r : Repo) (e : String)
    (h : (GitDriver.DeleteDir p r).1 = .error e) :
    (GitDriver.DeleteDir p r).2.commits = r.commits := by
  cases hst : fsStat r.fs (splitPath p) with
  | error e2 => simp [GitDriver.DeleteDir, hst]
  | ok f =>
    by_cases hd : f.isDir
    · cases hrm : fsRemove r.fs (splitPath p) with
      | error e2 => simp [GitDriver.DeleteDir, hst, hd, hrm]
      | ok fs2 =>
        rcases stageCommit_cases p { r with fs := fs2 } with hc | hc <;>
          simp_all [GitDriver.DeleteDir, hst, hd, hrm, hc]
    · simp [GitDriver.DeleteDir, hst, hd]

theorem DeleteFile_ok (p : String) (r : Repo)
    (h : (GitDriver.DeleteFile p r).1 = .ok ()) :
    ∃ fs2, fsRemove r.fs (splitPath p) = .ok fs2 ∧
      (GitDriver.DeleteFile p r).2 = ⟨fs2, [], r.commits ++ [r.staged ++ [relOf p]]⟩ := by
  cases hst : fsStat r.fs (splitPath p) with
  | error e => simp [GitDriver.DeleteFile, hst] at h
  | ok f =>
    by_cases hd : f.isDir
    · simp [GitDriver.DeleteFile, hst, hd] at h
    · cases hrm : fsRemove r.fs (splitPath p) with
      | error e => simp [GitDriver.DeleteFile, hst, hd, hrm] at h
      | ok fs2 =>
        refine ⟨fs2, rfl, ?_⟩
        rcases stageCommit_cases p { r with fs := fs2 } with hc | hc <;>
          simp_all [GitDriver.DeleteFile, hst, hd, hrm, hc]

theorem DeleteFile_err (p : String) (r : Repo) (e : String)
    (h : (GitDriver.DeleteFile p r).1 = .error e) :
    (GitDriver.DeleteFile p r).2.commits = r.commits := by
  cases hst : fsStat r.fs (splitPath p) with
  | error e2 => simp [GitDriver.DeleteFile, hst]
  | ok f =>
    by_cases hd : f.isDir
    · simp [GitDriver.DeleteFile, hst, hd]
    · cases hrm : fsRemove r.fs (splitPath p) with
      | error e2 => simp [GitDriver.DeleteFile, hst, hd, hrm]
      | ok fs2 =>
        rcases stageCommit_cases p { r with fs := fs2 } with hc | hc <;>
          simp_all [GitDriver.DeleteFile, hst, hd, hrm, hc]

theorem Rename_ok (a b : String) (r : Repo)
    (h : (GitDriver.Rename a b r).1 = .ok ()) :
    ∃ fs2, fsRename r.fs (splitPath a) (splitPath b) = .ok fs2 ∧
      (GitDriver.Rename a b r).2 =
        ⟨fs2, [], r.commits ++ [r.staged ++ [relOf a, relOf b]]⟩ := by
  cases hrn : fsRename r.fs (splitPath a) (splitPath b) with
  | error e => simp [GitDriver.Rename, hrn] at h
  | ok fs2 =>
    refine ⟨fs2, rfl, ?_⟩
    by_cases ha : isAbs a
    · rcases stageCommit_cases b
        ⟨fs2, r.staged ++ [relOf a], r.commits⟩ with hc | hc <;>
        simp_all [GitDriver.Rename, hrn, GitDriver.add, relFromRoot_abs a ha, hc]
    · simp [GitDriver.Rename, hrn, GitDriver.add, relFromRoot_rel a ha] at h

theorem Rename_err (a b : String) (r : Repo) (e : String)
    (h : (GitDriver.Rename a b r).1 = .error e) :
    (GitDriver.Rename a b r).2.commits = r.commits := by
  cases hrn : fsRename r.fs (splitPath a) (splitPath b) with
  | error e2 => simp [GitDriver.Rename, hrn]
  | ok fs2 =>
    by_cases ha : isAbs a
    · rcases stageCommit_cases b
        ⟨fs2, r.staged ++ [relOf a], r.commits⟩ with hc | hc <;>
        simp_all [GitDriver.Rename, hrn, GitDriver.add, relFromRoot_abs a ha, hc]
    · simp [GitDriver.Rename, hrn, GitDriver.add, relFromRoot_rel a ha]

instance : Inhabited Entry := ⟨.dir 0⟩

/-- The non-append write path of `putFileBody`, starting from the
resolved removal step. -/
theorem putFileBody_fresh (p : String) (data : Bytes) (ap : Bool) (r : Repo) :
    GitDriver.putFileBody p data false ap r =
      (match fsCreate r.fs (splitPath p) with
        | .error e => (.error e, r)
        | .ok fs2 =>
          match GitDriver.stageCommit p
              { r with fs := fsWriteAll fs2 (splitPath p) data } with
          | (.error e, rr) => (.error e, rr)
          | (.ok _, rr) => (.ok data.length, rr)) := by
  cases ap <;> rfl

/-- The non-append write path of `putFileBody` for an existing target:
remove first, then create and write. -/
theorem putFileBody_replace (p : String) (data : Bytes) (r : Repo) :
    GitDriver.putFileBody p data true false r =
      (match fsRemove r.fs (splitPath p) with
        | .error e => (.error e, r)
        | .ok fs1 =>
          match fsCreate fs1 (splitPath p) with
          | .error e => (.error e, { r with fs := fs1 })
          | .ok fs2 =>
            match GitDriver.stageCommit p
                { r with fs := fsWriteAll fs2 (splitPath p) data } with
            | (.error e, rr) => (.error e, rr)
            | (.ok _, rr) => (.ok data.length, rr)) := rfl

/-- The append path of `putFileBody`. -/
theorem putFileBody_append (p : String) (data : Bytes) (r : Repo) :
    GitDriver.putFileBody p data true true r =
      (match fsAppend r.fs (splitPath p) data with
        | .error e => (.error e, r)
        | .ok fs2 =>
          match GitDriver.stageCommit p { r with fs := fs2 } with
          | (.error e, rr) => (.error e, rr)
          | (.ok _, rr) => (.ok data.length, rr)) := rfl

theorem putFileBody_ok (p : String) (data : Bytes) (ex ap : Bool) (r : Repo) (n : Nat)
    (h : (GitDriver.putFileBody p data ex ap r).1 = .ok n) :
    n = data.length ∧ ∃ fs2, (GitDriver.putFileBody p data ex ap r).2 =
      ⟨fs2, [], r.commits ++ [r.staged ++ [relOf p]]⟩ := by
  cases ex
  · rw [putFileBody_fresh] at h ⊢
    cases hcr : fsCreate r.fs (splitPath p) with
    | error e => rw [hcr] at h; simp at h
    | ok fs2 =>
      rw [hcr] at h
      dsimp only at h ⊢
      rcases stageCommit_cases p
          { r with fs := fsWriteAll fs2 (splitPath p) data } with hc | hc <;>
        rw [hc] at h ⊢
      · exact ⟨by simpa using h.symm, fsWriteAll fs2 (splitPath p) data, rfl⟩
      · exact absurd h (by simp)
  · cases ap
    · rw [putFileBody_replace] at h ⊢
      cases hrm : fsRemove r.fs (splitPath p) with
      | error e => rw [hrm] at h; simp at h
      | ok fs1 =>
        rw [hrm] at h
        dsimp only at h ⊢
        cases hcr : fsCreate fs1 (splitPath p) with
        | error e => rw [hcr] at h; simp at h
        | ok fs2 =>
          rw [hcr] at h
          dsimp only at h ⊢
          rcases stageCommit_cases p
              { r with fs := fsWriteAll fs2 (splitPath p) data } with hc | hc <;>
            rw [hc] at h ⊢
          · exact ⟨by simpa using h.symm, fsWriteAll fs2 (splitPath p) data, rfl⟩
          · exact absurd h (by simp)
    · rw [putFileBody_append] at h ⊢
      cases happ : fsAppend r.fs (splitPath p) data with
      | error e => rw [happ] at h; simp at h
      | ok fs2 =>
        rw [happ] at h
        dsimp only at h ⊢
        rcases stageCommit_cases p { r with fs := fs2 } with hc | hc <;>
          rw [hc] at h ⊢
        · exact ⟨by simpa using h.symm, fs2, rfl⟩
        · exact absurd h (by simp)

theorem putFileBody_err (p : String) (data : Bytes) (ex ap : Bool) (r : Repo) (e : String)
    (h : (GitDriver.putFileBody p data ex ap r).1 = .error e) :
    (GitDriver.putFileBody p data ex ap r).2.commits = r.commits := by
  cases ex
  · rw [putFileBody_fresh] at h ⊢
    cases hcr : fsCreate r.fs (splitPath p) with
    | error e2 => rfl
    | ok fs2 =>
      rw [hcr] at h
      dsimp only at h ⊢
      rcases stageCommit_cases p
          { r with fs := fsWriteAll fs2 (splitPath p) data } with hc | hc <;>
        rw [hc] at h ⊢ <;>
        first
          | rfl
          | exact absurd h (by simp)
  · cases ap
    · rw [putFileBody_replace] at h ⊢
      cases hrm : fsRemove r.fs (splitPath p) with
      | error e2 => rfl
      | ok fs1 =>
        rw [hrm] at h
        dsimp only at h ⊢
        cases hcr : fsCreate fs1 (splitPath p) with
        | error e2 => rfl
        | ok fs2 =>
          rw [hcr] at h
          dsimp only at h ⊢
          rcases stageCommit_cases p
              { r with fs := fsWriteAll fs2 (splitPath p) data } with hc | hc <;>
            rw [hc] at h ⊢ <;>
            first
              | rfl
              | exact absurd h (by simp)
    · rw [putFileBody_append] at h ⊢
      cases happ : fsAppend r.fs (splitPath p) data with
      | error e2 => rfl
      | ok fs2 =>
        rw [happ] at h
        dsimp only at h ⊢
        rcases stageCommit_cases p { r with fs := fs2 } with hc | hc <;>
          rw [hc] at h ⊢ <;>
          first
            | rfl
            | exact absurd h (by simp)

theorem PutFile_ok (p : String) (data : Bytes) (ap : Bool) (r : Repo) (n : Nat)
    (h : (GitDriver.PutFile p data ap r).1 = .ok n) :
    n = data.length ∧ ∃ fs2, (GitDriver.PutFile p data ap r).2 =
      ⟨fs2, [], r.commits ++ [r.staged ++ [relOf p]]⟩ := by
  unfold GitDriver.PutFile at h ⊢
  cases hst : fsStat r.fs (splitPath p) with
  | error e => simp only [hst] at h ⊢; exact putFileBody_ok p data false ap r n h
  | ok f =>
    by_cases hd : f.isDir
    · simp [hst, hd] at h
    · simp only [hst, hd, if_false, Bool.false_eq_true] at h ⊢
      exact putFileBody_ok p data true ap r n h

theorem PutFile_err (p : String) (data : Bytes) (ap : Bool) (r : Repo) (e : String)
    (h : (GitDriver.PutFile p data ap r).1 = .error e) :
    (GitDriver.PutFile p data ap r).2.commits = r.commits := by
  unfold GitDriver.PutFile at h ⊢
  cases hst : fsStat r.fs (splitPath p) with
  | error e2 => simp only [hst] at h ⊢; exact putFileBody_err p data false ap r e h
  | ok f =>
    by_cases hd : f.isDir
    · simp [hst, hd]
    · simp only [hst, hd, if_false, Bool.false_eq_true] at h ⊢
      exact putFileBody_err p data true ap r e h

/-! ## Read-only operations do not touch the repository state -/

theorem Stat_snd (d : GitDriver) (p : String) (r : Repo) :
    (GitDriver.Stat d p r).2 = r := by
  unfold GitDriver.Stat
  repeat' split
  all_goals rfl

theorem ChangeDir_snd (p : String) (r : Repo) :
    (GitDriver.ChangeDir p r).2 = r := by
  unfold GitDriver.ChangeDir
  repeat' split
  all_goals rfl

theorem ListDir_snd {σ : Type} (d : GitDriver) (p : String)
    (cb : FileInfo → σ → Except String σ) (s : σ) (r : Repo) :
    (GitDriver.ListDir d p cb s r).2 = r := by
  unfold GitDriver.ListDir
  repeat' split
  all_goals rfl

theorem GetFile_snd (p : String) (off : Nat) (r : Repo) :
    (GitDriver.GetFile p off r).2 = r := by
  unfold GitDriver.GetFile
  repeat' split
  all_goals rfl

/-! ## Concrete states for the witnesses -/

def repo0 : Repo := ⟨[], [], []⟩

def repoA : Repo := ⟨[(["a"], .file 7 [9, 9, 9])], [], []⟩

def permFix : Perm := ⟨fun _ => .ok 438, fun _ => .ok "user", fun _ => .ok "group"⟩

def drv : GitDriver := ⟨"/srv/repo", permFix⟩

/-! ## Claim theorems -/

/-- C2. Every successful call to a mutating operation (`MakeDir`,
`DeleteDir`, `DeleteFile`, `Rename`, `PutFile`) increases the repository's
commit count by exactly one; the read-only operations (`Stat`, `ChangeDir`,
`ListDir`, `GetFile`) leave the repository state — in particular the commit
log — untouched. -/
theorem commit_count_invariant :
    (∀ p r, (GitDriver.MakeDir p r).1 = .ok () →
      (GitDriver.MakeDir p r).2.commits.length = r.commits.length + 1) ∧
    (∀ p r, (GitDriver.DeleteDir p r).1 = .ok () →
      (GitDriver.DeleteDir p r).2.commits.length = r.commits.length + 1) ∧
    (∀ p r, (GitDriver.DeleteFile p r).1 = .ok () →
      (GitDriver.DeleteFile p r).2.commits.length = r.commits.length + 1) ∧
    (∀ a b r, (GitDriver.Rename a b r).1 = .ok () →
      (GitDriver.Rename a b r).2.commits.length = r.commits.length + 1) ∧
    (∀ p data ap r n, (GitDriver.PutFile p data ap r).1 = .ok n →
      (GitDriver.PutFile p data ap r).2.commits.length = r.commits.length + 1) ∧
    (∀ d p r, (GitDriver.Stat d p r).2 = r) ∧
    (∀ p r, (GitDriver.ChangeDir p r).2 = r) ∧
    (∀ (σ : Type) d p (cb : FileInfo → σ → Except String σ) s r,
      (GitDriver.ListDir d p cb s r).2 = r) ∧
    (∀ p off r, (GitDriver.GetFile p off r).2 = r) := by
  refine ⟨?_, ?_, ?_, ?_, ?_, Stat_snd, ChangeDir_snd,
    fun σ => ListDir_snd, GetFile_snd⟩
  · intro p r h
    obtain ⟨fs2, -, h2⟩ := MakeDir_ok p r h
    rw [h2]
    simp
  · intro p r h
    obtain ⟨fs2, -, h2⟩ := DeleteDir_ok p r h
    rw [h2]
    simp
  · intro p r h
    obtain ⟨fs2, -, h2⟩ := DeleteFile_ok p r h
    rw [h2]
    simp
  · intro a b r h
    obtain ⟨fs2, -, h2⟩ := Rename_ok a b r h
    rw [h2]
    simp
  · intro p data ap r n h
    obtain ⟨-, fs2, h2⟩ := PutFile_ok p data ap r n h
    rw [h2]
    simp

theorem commit_count_invariant_witness :
    (GitDriver.MakeDir "/a" repo0).2.commits.length = repo0.commits.length + 1 ∧
    (GitDriver.PutFile "/x" [1, 2] false repo0).2.commits.length =
      repo0.commits.length + 1 ∧
    (GitDriver.Stat drv "/a" repoA).2 = repoA :=
  ⟨commit_count_invariant.1 "/a" repo0 (by decide),
   commit_count_invariant.2.2.2.2.1 "/x" [1, 2] false repo0 2 (by decide),
   commit_count_invariant.2.2.2.2.2.1 drv "/a" repoA⟩

/-- C1 counterexample: the claim says a failed mutating call leaves
the working tree unchanged.  `Rename "a" "b"` on a tree holding the file
`a`: the backend rename succeeds and moves the file, then staging fails
(`filepath.Rel("/", "a")` errors on the non-absolute path), so the call
fails — yet the working tree now holds `b` instead of `a`. -/
theorem failed_mutation_changes_tree_cex :
    (GitDriver.Rename "a" "b" ⟨[(["a"], Entry.file 7 [9, 9, 9])], [], []⟩).1 =
        .error "Rel: cannot make a relative to /" ∧
      (GitDriver.Rename "a" "b" ⟨[(["a"], Entry.file 7 [9, 9, 9])], [], []⟩).2.fs ≠
        [(["a"], Entry.file 7 [9, 9, 9])] := by
  constructor
  · rfl
  · decide

/-- C1 (amended). Every mutating operation that succeeds leaves the
working tree in a new committed state (exactly one commit appended, the
staging area cleared); every mutating operation that fails creates no
commit — but the tree itself is unchanged only when the failure happens
before the backend mutation: a staging or commit failure leaves the
already-applied backend mutation in place. -/
theorem mutation_commits_or_leaves_no_commit :
    (∀ p r, (GitDriver.MakeDir p r).1 = .ok () →
        (GitDriver.MakeDir p r).2.staged = [] ∧
        (GitDriver.MakeDir p r).2.commits = r.commits ++ [r.staged ++ [relOf p]]) ∧
    (∀ p r e, (GitDriver.MakeDir p r).1 = .error e →
        (GitDriver.MakeDir p r).2.commits = r.commits) ∧
    (∀ p r, (GitDriver.DeleteDir p r).1 = .ok () →
        (GitDriver.DeleteDir p r).2.staged = [] ∧
        (GitDriver.DeleteDir p r).2.commits = r.commits ++ [r.staged ++ [relOf p]]) ∧
    (∀ p r e, (GitDriver.DeleteDir p r).1 = .error e →
        (GitDriver.DeleteDir p r).2.commits = r.commits) ∧
    (∀ p r, (GitDriver.DeleteFile p r).1 = .ok () →
        (GitDriver.DeleteFile p r).2.staged = [] ∧
        (GitDriver.DeleteFile p r).2.commits = r.commits ++ [r.staged ++ [relOf p]]) ∧
    (∀ p r e, (GitDriver.DeleteFile p r).1 = .error e →
        (GitDriver.DeleteFile p r).2.commits = r.commits) ∧
    (∀ a b r, (GitDriver.Rename a b r).1 = .ok () →
        (GitDriver.Rename a b r).2.staged = [] ∧
        (GitDriver.Rename a b r).2.commits =
          r.commits ++ [r.staged ++ [relOf a, relOf b]]) ∧
    (∀ a b r e, (GitDriver.Rename a b r).1 = .error e →
        (GitDriver.Rename a b r).2.commits = r.commits) ∧
    (∀ p data ap r n, (GitDriver.PutFile p data ap r).1 = .ok n →
        n = data.length ∧
        (GitDriver.PutFile p data ap r).2.staged = [] ∧
        (GitDriver.PutFile p data ap r).2.commits =
          r.commits ++ [r.staged ++ [relOf p]]) ∧
    (∀ p data ap r e, (GitDriver.PutFile p data ap r).1 = .error e →
        (GitDriver.PutFile p data ap r).2.commits = r.commits) := by
  refine ⟨?_, MakeDir_err, ?_, DeleteDir_err, ?_, DeleteFile_err, ?_,
    Rename_err, ?_, PutFile_err⟩
  · intro p r h
    obtain ⟨fs2, -, h2⟩ := MakeDir_ok p r h
    rw [h2]
    exact ⟨rfl, rfl⟩
  · intro p r h
    obtain ⟨fs2, -, h2⟩ := DeleteDir_ok p r h
    rw [h2]
    exact ⟨rfl, rfl⟩
  · intro p r h
    obtain ⟨fs2, -, h2⟩ := DeleteFile_ok p r h
    rw [h2]
    exact ⟨rfl, rfl⟩
  · intro a b r h
    obtain ⟨fs2, -, h2⟩ := Rename_ok a b r h
    rw [h2]
    exact ⟨rfl, rfl⟩
  · intro p data ap r n h
    obtain ⟨hn, fs2, h2⟩ := PutFile_ok p data ap r n h
    rw [h2]
    exact ⟨hn, rfl, rfl⟩

theorem mutation_commits_or_leaves_no_commit_witness :
    ((GitDriver.MakeDir "/a" repo0).2.staged = [] ∧
      (GitDriver.MakeDir "/a" repo0).2.commits =
        repo0.commits ++ [repo0.staged ++ [relOf "/a"]]) ∧
    (GitDriver.Rename "a" "b" repoA).2.commits = repoA.commits :=
  ⟨mutation_commits_or_leaves_no_commit.1 "/a" repo0 (by decide),
   mutation_commits_or_leaves_no_commit.2.2.2.2.2.2.2.1 "a" "b" repoA
     "Rel: cannot make a relative to /" (by rfl)⟩

/-! ## Stat helpers -/

theorem fsStat_found (fs : FS) (segs : List String) (e : Entry)
    (hk : cleanSegs segs ≠ []) (hf : fsFind fs (cleanSegs segs) = some e) :
    fsStat fs segs = .ok (infoOf (cleanSegs segs) e) := by
  simp only [fsStat, if_neg hk, hf]

theorem fsStat_missing (fs : FS) (segs : List String)
    (hk : cleanSegs segs ≠ []) (hf : fsFind fs (cleanSegs segs) = none) :
    fsStat fs segs = .error notExistErr := by
  simp only [fsStat, if_neg hk, hf]

/-- C5. The operation `DeleteFile` on a path whose entry is a directory fails with
the WrongKind error "Not a file"; `DeleteDir` on a path whose entry is a
regular file fails with the WrongKind error "Not a directory".  In both
cases the repository is returned exactly as it was: no commit is created
and the entry is not removed. -/
theorem delete_wrong_kind_fails_without_commit :
    (∀ p r m, cleanSegs (splitPath p) ≠ [] →
      fsFind r.fs (cleanSegs (splitPath p)) = some (.dir m) →
      GitDriver.DeleteFile p r = (.error "Not a file", r)) ∧
    (∀ p r m c, cleanSegs (splitPath p) ≠ [] →
      fsFind r.fs (cleanSegs (splitPath p)) = some (.file m c) →
      GitDriver.DeleteDir p r = (.error "Not a directory", r)) := by
  constructor
  · intro p r m hk hf
    rw [GitDriver.DeleteFile, fsStat_found r.fs (splitPath p) (.dir m) hk hf]
    rfl
  · intro p r m c hk hf
    rw [GitDriver.DeleteDir, fsStat_found r.fs (splitPath p) (.file m c) hk hf]
    rfl

theorem delete_wrong_kind_fails_without_commit_witness :
    GitDriver.DeleteFile "/d" ⟨[(["d"], .dir 5)], [], []⟩ =
        (.error "Not a file", ⟨[(["d"], .dir 5)], [], []⟩) ∧
      GitDriver.DeleteDir "/f" ⟨[(["f"], .file 5 [1])], [], []⟩ =
        (.error "Not a directory", ⟨[(["f"], .file 5 [1])], [], []⟩) :=
  ⟨delete_wrong_kind_fails_without_commit.1 "/d" ⟨[(["d"], .dir 5)], [], []⟩ 5
      (by decide) (by decide),
   delete_wrong_kind_fails_without_commit.2 "/f" ⟨[(["f"], .file 5 [1])], [], []⟩ 5 [1]
      (by decide) (by decide)⟩

/-- C3. On a path that does not exist in the working tree,
`PutFile` with `append = true` behaves identically — same returned value
and same resulting repository state — to `append = false` (the
`appendData && !isExist` degradation); it creates a fresh file holding
exactly the stream's bytes and returns the stream's length. -/
theorem putFile_append_on_missing_degrades :
    (∀ p data r e, fsStat r.fs (splitPath p) = .error e →
      GitDriver.PutFile p data true r = GitDriver.PutFile p data false r) ∧
    (∀ p data r e fs2, fsStat r.fs (splitPath p) = .error e → isAbs p →
      fsCreate r.fs (splitPath p) = .ok fs2 →
      (GitDriver.PutFile p data true r).1 = .ok data.length ∧
      fsFind (GitDriver.PutFile p data true r).2.fs (cleanSegs (splitPath p)) =
        some (.file 0 data)) := by
  constructor
  · intro p data r e h
    rw [GitDriver.PutFile, GitDriver.PutFile, h]
    rw [putFileBody_fresh, putFileBody_fresh]
  · intro p data r e fs2 h habs hcr
    rw [GitDriver.PutFile, h, putFileBody_fresh, hcr]
    dsimp only
    rw [stageCommit_abs p _ habs]
    exact ⟨rfl, fsFind_insert_self _ _ _⟩

theorem putFile_append_on_missing_degrades_witness :
    (GitDriver.PutFile "/x" [1, 2] true repo0 =
        GitDriver.PutFile "/x" [1, 2] false repo0) ∧
      (GitDriver.PutFile "/x" [1, 2] true repo0).1 = .ok 2 ∧
      fsFind (GitDriver.PutFile "/x" [1, 2] true repo0).2.fs
          (cleanSegs (splitPath "/x")) = some (.file 0 [1, 2]) :=
  ⟨putFile_append_on_missing_degrades.1 "/x" [1, 2] repo0 notExistErr (by decide),
   putFile_append_on_missing_degrades.2 "/x" [1, 2] repo0 notExistErr
     [(["x"], .file 0 [])] (by decide) (by decide) (by decide)⟩

/-- C4. Appending to an existing regular file with content `C`
succeeds (for a stageable, absolute path), returns the number of bytes
copied from the stream, and a subsequent `GetFile(p, 0)` yields exactly
the concatenation `C ++ data2` with size `C.length + data2.length`. -/
theorem putFile_append_concatenates :
    ∀ p data2 r m C,
      cleanSegs (splitPath p) ≠ [] →
      fsFind r.fs (cleanSegs (splitPath p)) = some (.file m C) →
      isAbs p →
      GitDriver.PutFile p data2 true r =
        (.ok data2.length,
          ⟨fsInsert r.fs (cleanSegs (splitPath p)) (.file m (C ++ data2)), [],
            r.commits ++ [r.staged ++ [relOf p]]⟩) ∧
      (GitDriver.GetFile p 0 (GitDriver.PutFile p data2 true r).2).1 =
        .ok (C.length + data2.length, C ++ data2) := by
  intro p data2 r m C hk hf habs
  have hst := fsStat_found r.fs (splitPath p) (.file m C) hk hf
  have happ : fsAppend r.fs (splitPath p) data2 =
      .ok (fsInsert r.fs (cleanSegs (splitPath p)) (.file m (C ++ data2))) := by
    simp only [fsAppend, hf]
  have h1 : GitDriver.PutFile p data2 true r =
      (.ok data2.length,
        ⟨fsInsert r.fs (cleanSegs (splitPath p)) (.file m (C ++ data2)), [],
          r.commits ++ [r.staged ++ [relOf p]]⟩) := by
    rw [GitDriver.PutFile, hst]
    show GitDriver.putFileBody p data2 true true r = _
    rw [putFileBody_append, happ]
    dsimp only
    rw [stageCommit_abs p _ habs]
  refine ⟨h1, ?_⟩
  rw [h1]
  dsimp only
  have hop : fsOpen (fsInsert r.fs (cleanSegs (splitPath p)) (.file m (C ++ data2)))
      (splitPath p) = .ok (C ++ data2) := by
    simp only [fsOpen, if_neg hk, fsFind_insert_self]
  rw [GitDriver.GetFile,
    fsStat_found _ (splitPath p) (.file m (C ++ data2)) hk (fsFind_insert_self _ _ _),
    hop]
  dsimp only [infoOf, Entry.size]
  simp

theorem putFile_append_concatenates_witness :
    GitDriver.PutFile "/x" [3, 4] true ⟨[(["x"], .file 0 [1, 2])], [], []⟩ =
        (.ok 2,
          ⟨[(["x"], .file 0 [1, 2, 3, 4])], [],
            [[relOf "/x"]]⟩) ∧
      (GitDriver.GetFile "/x" 0
          (GitDriver.PutFile "/x" [3, 4] true
            ⟨[(["x"], .file 0 [1, 2])], [], []⟩).2).1 = .ok (4, [1, 2, 3, 4]) := by
  have h := putFile_append_concatenates "/x" [3, 4]
    ⟨[(["x"], .file 0 [1, 2])], [], []⟩ 0 [1, 2] (by decide) (by decide) (by decide)
  exact ⟨by rw [h.1]; rfl, h.2⟩

/-- C10. A mutating operation invoked with a path that does not
begin with a slash fails at the staging step (`filepath.Rel("/", path)`
rejects a non-absolute path) after the backend mutation has already been
applied: the call returns the `Rel` error, the staging area and the
commit log are unchanged, and the mutated tree is left in place. -/
theorem relative_path_staging_failure :
    (∀ p r fs2, ¬ isAbs p → fsMkdirAll r.fs (splitPath p) = .ok fs2 →
      GitDriver.MakeDir p r =
        (.error ("Rel: cannot make " ++ p ++ " relative to /"),
          ⟨fs2, r.staged, r.commits⟩)) ∧
    (∀ p r f fs2, ¬ isAbs p → fsStat r.fs (splitPath p) = .ok f →
      f.isDir = true → fsRemove r.fs (splitPath p) = .ok fs2 →
      GitDriver.DeleteDir p r =
        (.error ("Rel: cannot make " ++ p ++ " relative to /"),
          ⟨fs2, r.staged, r.commits⟩)) ∧
    (∀ p r f fs2, ¬ isAbs p → fsStat r.fs (splitPath p) = .ok f →
      f.isDir = false → fsRemove r.fs (splitPath p) = .ok fs2 →
      GitDriver.DeleteFile p r =
        (.error ("Rel: cannot make " ++ p ++ " relative to /"),
          ⟨fs2, r.staged, r.commits⟩)) ∧
    (∀ a b r fs2, ¬ isAbs a →
      fsRename r.fs (splitPath a) (splitPath b) = .ok fs2 →
      GitDriver.Rename a b r =
        (.error ("Rel: cannot make " ++ a ++ " relative to /"),
          ⟨fs2, r.staged, r.commits⟩)) ∧
    (∀ p data ap r e fs2, ¬ isAbs p → fsStat r.fs (splitPath p) = .error e →
      fsCreate r.fs (splitPath p) = .ok fs2 →
      GitDriver.PutFile p data ap r =
        (.error ("Rel: cannot make " ++ p ++ " relative to /"),
          ⟨fsWriteAll fs2 (splitPath p) data, r.staged, r.commits⟩)) := by
  refine ⟨?_, ?_, ?_, ?_, ?_⟩
  · intro p r fs2 hrel hmk
    rw [GitDriver.MakeDir, hmk]
    dsimp only
    rw [stageCommit_rel p _ hrel]
  · intro p r f fs2 hrel hst hd hrm
    rw [GitDriver.DeleteDir, hst]
    dsimp only
    rw [if_neg (by simp [hd]), hrm]
    dsimp only
    rw [stageCommit_rel p _ hrel]
  · intro p r f fs2 hrel hst hd hrm
    rw [GitDriver.DeleteFile, hst]
    dsimp only
    rw [if_neg (by simp [hd]), hrm]
    dsimp only
    rw [stageCommit_rel p _ hrel]
  · intro a b r fs2 hrel hrn
    rw [GitDriver.Rename, hrn]
    dsimp only
    rw [GitDriver.add, relFromRoot_rel a hrel]
  · intro p data ap r e fs2 hrel hst hcr
    rw [GitDriver.PutFile, hst, putFileBody_fresh, hcr]
    dsimp only
    rw [stageCommit_rel p _ hrel]

theorem relative_path_staging_failure_witness :
    GitDriver.MakeDir "q" repo0 =
        (.error "Rel: cannot make q relative to /", ⟨[(["q"], .dir 0)], [], []⟩) ∧
      GitDriver.Rename "a" "b" repoA =
        (.error "Rel: cannot make a relative to /",
          ⟨[(["b"], .file 7 [9, 9, 9])], [], []⟩) ∧
      GitDriver.PutFile "q" [5] false repo0 =
        (.error "Rel: cannot make q relative to /",
          ⟨[(["q"], .file 0 [5])], [], []⟩) := by
  refine ⟨?_, ?_, ?_⟩
  · have h := relative_path_staging_failure.1 "q" repo0 [(["q"], .dir 0)]
      (by decide) (by decide)
    rw [h]
    rfl
  · have h := relative_path_staging_failure.2.2.2.1 "a" "b" repoA
      [(["b"], .file 7 [9, 9, 9])] (by decide) (by decide)
    rw [h]
    rfl
  · have h := relative_path_staging_failure.2.2.2.2 "q" [5] false repo0
      notExistErr [(["q"], .file 0 [])] (by decide) (by decide) (by decide)
    rw [h]
    rfl

/-! ## Rename lemmas -/

/-- Model of `mkdirChain` only appends entries, so a key that was already bound
keeps its binding. -/
theorem mkdirChain_find_some :
    ∀ (l : List String) (fs fs1 : FS) (base k : List String) (e : Entry),
      mkdirChain fs base l = .ok fs1 → fsFind fs k = some e →
      fsFind fs1 k = some e := by
  intro l
  induction l with
  | nil =>
    intro fs fs1 base k e h hf
    rw [mkdirChain] at h
    cases h
    exact hf
  | cons s rest ih =>
    intro fs fs1 base k e h hf
    rw [mkdirChain] at h
    cases hp : fsFind fs (base ++ [s]) with
    | some ent =>
      rw [hp] at h
      cases ent with
      | file m c => exact absurd h (by simp)
      | dir m => exact ih fs fs1 (base ++ [s]) k e h hf
    | none =>
      rw [hp] at h
      refine ih _ fs1 (base ++ [s]) k e h ?_
      rw [fsFind_append, hf]
      rfl

/-- Model of `mkdirChain` binds only keys of length at most `base.length +
l.length`, so longer keys are untouched. -/
theorem mkdirChain_find_high :
    ∀ (l : List String) (fs fs1 : FS) (base k : List String),
      mkdirChain fs base l = .ok fs1 → base.length + l.length < k.length →
      fsFind fs1 k = fsFind fs k := by
  intro l
  induction l with
  | nil =>
    intro fs fs1 base k h _
    rw [mkdirChain] at h
    cases h
    rfl
  | cons s rest ih =>
    intro fs fs1 base k h hlen
    rw [mkdirChain] at h
    have hlen2 : (base ++ [s]).length + rest.length < k.length := by
      simp only [List.length_append, List.length_cons, List.length_nil] at *
      omega
    cases hp : fsFind fs (base ++ [s]) with
    | some ent =>
      rw [hp] at h
      cases ent with
      | file m c => exact absurd h (by simp)
      | dir m => exact ih fs fs1 (base ++ [s]) k h hlen2
    | none =>
      rw [hp] at h
      rw [ih _ fs1 (base ++ [s]) k h hlen2, fsFind_append]
      have hk : ¬((base ++ [s]) = k) := by
        intro hh
        rw [← hh] at hlen
        simp only [List.length_append, List.length_cons, List.length_nil] at hlen
        omega
      rw [fsFind_cons]
      simp only [if_neg hk]
      cases fsFind fs k <;> rfl

/-- After the rename re-keying, nothing is bound at the source key (as
long as the destination is not an ancestor prefix of the source). -/
theorem rekey_find_source_none (l : FS) (kf kt : List String)
    (hpre : kf.take kt.length ≠ kt) :
    fsFind (l.map (fun kv =>
      if kv.1.take kf.length = kf then (kt ++ kv.1.drop kf.length, kv.2) else kv))
      kf = none := by
  induction l with
  | nil => rfl
  | cons kv t ih =>
    rw [List.map_cons]
    by_cases hk : kv.1.take kf.length = kf
    · rw [if_pos hk, fsFind_cons]
      have hne : ¬((kt ++ kv.1.drop kf.length, kv.2).1 = kf) := by
        dsimp only
        intro hcontra
        exact hpre (by rw [← hcontra, List.take_left])
      rw [if_neg hne]
      exact ih
    · rw [if_neg hk, fsFind_cons]
      have hne : ¬(kv.1 = kf) := by
        intro hcontra
        exact hk (by rw [hcontra, List.take_length])
      rw [if_neg hne]
      exact ih

/-- After the rename re-keying, the destination key is bound to what the
source key was bound to. -/
theorem rekey_find_target (l : FS) (kf kt : List String) (e : Entry)
    (hkf : fsFind l kf = some e) (hkt : fsFind l kt = none) :
    fsFind (l.map (fun kv =>
      if kv.1.take kf.length = kf then (kt ++ kv.1.drop kf.length, kv.2) else kv))
      kt = some e := by
  induction l with
  | nil => exact absurd hkf (by simp [fsFind])
  | cons kv t ih =>
    rw [fsFind_cons] at hkf hkt
    have hne_t : ¬(kv.1 = kt) := by
      intro hh
      rw [if_pos hh] at hkt
      exact absurd hkt (by simp)
    rw [if_neg hne_t] at hkt
    rw [List.map_cons]
    by_cases hk1 : kv.1 = kf
    · rw [if_pos hk1] at hkf
      have he : kv.2 = e := by simpa using hkf
      have hcond : kv.1.take kf.length = kf := by rw [hk1, List.take_length]
      rw [if_pos hcond, fsFind_cons]
      have hkey : (kt ++ kv.1.drop kf.length, kv.2).1 = kt := by
        dsimp only
        rw [hk1, List.drop_length, List.append_nil]
      rw [if_pos hkey, he]
    · rw [if_neg hk1] at hkf
      by_cases hk : kv.1.take kf.length = kf
      · have hlt : kf.length < kv.1.length := by
          rcases Nat.lt_or_ge kf.length kv.1.length with hlt | hge
          · exact hlt
          · exfalso
            apply hk1
            rw [← hk, List.take_of_length_le hge]
        rw [if_pos hk, fsFind_cons]
        have hne : ¬((kt ++ kv.1.drop kf.length, kv.2).1 = kt) := by
          dsimp only
          intro hcontra
          have := congrArg List.length hcontra
          simp only [List.length_append, List.length_drop] at this
          omega
        rw [if_neg hne]
        exact ih hkf hkt
      · rw [if_neg hk, fsFind_cons, if_neg hne_t]
        exact ih hkf hkt

/-- A successful backend rename: the destination's parents are created,
the destination was free, and every binding under the source key is
re-keyed under the destination key. -/
theorem fsRename_ok (fs fs1 : FS) (sa sb : List String)
    (hka : cleanSegs sa ≠ []) (hkb : cleanSegs sb ≠ [])
    (ea : Entry) (hfa : fsFind fs (cleanSegs sa) = some ea)
    (hfb : fsFind fs (cleanSegs sb) = none)
    (hmk : mkdirChain fs [] (cleanSegs sb).dropLast = .ok fs1) :
    fsRename fs sa sb =
      .ok (fs1.map (fun kv =>
        if kv.1.take (cleanSegs sa).length = cleanSegs sa then
          (cleanSegs sb ++ kv.1.drop (cleanSegs sa).length, kv.2)
        else kv)) := by
  have hfb1 : fsFind fs1 (cleanSegs sb) = none := by
    rw [mkdirChain_find_high (cleanSegs sb).dropLast fs fs1 [] (cleanSegs sb) hmk
      (by simp only [List.length_nil, List.length_dropLast, Nat.zero_add]
          have : 0 < (cleanSegs sb).length := List.length_pos.mpr hkb
          omega), hfb]
  rw [fsRename]
  rw [if_neg (by simp [hka, hkb]), hfa]
  dsimp only
  rw [hmk]
  dsimp only
  rw [hfb1]
  dsimp only
  rw [fsErase_of_find_none fs1 (cleanSegs sb) hfb1]

/-- C9. A successful `Rename(A, B)` of an existing file to a fresh
path stages both the source and the destination into the single commit
it creates, and afterwards `Stat(A)` fails with the backend's not-found
error while `Stat(B)` succeeds, reporting the original size of A's
content, which `GetFile(B, 0)` returns unchanged. -/
theorem rename_stages_both_then_source_gone :
    ∀ (d : GitDriver) (a b : String) (r : Repo) (m : Nat) (C : Bytes) (fs1 : FS)
      (mo : Nat) (o g : String),
      cleanSegs (splitPath a) ≠ [] →
      cleanSegs (splitPath b) ≠ [] →
      fsFind r.fs (cleanSegs (splitPath a)) = some (.file m C) →
      fsFind r.fs (cleanSegs (splitPath b)) = none →
      (cleanSegs (splitPath a)).take (cleanSegs (splitPath b)).length ≠
        cleanSegs (splitPath b) →
      mkdirChain r.fs [] (cleanSegs (splitPath b)).dropLast = .ok fs1 →
      isAbs a → isAbs b →
      d.perm.getMode b = .ok mo →
      d.perm.getOwner b = .ok o →
      d.perm.getGroup b = .ok g →
      (GitDriver.Rename a b r).1 = .ok () ∧
      (GitDriver.Rename a b r).2.commits =
        r.commits ++ [r.staged ++ [relOf a, relOf b]] ∧
      (GitDriver.Stat d a (GitDriver.Rename a b r).2).1 = .error notExistErr ∧
      (GitDriver.Stat d b (GitDriver.Rename a b r).2).1 =
        .ok ⟨⟨(cleanSegs (splitPath b)).getLastD "/", C.length, m, false⟩, mo, o, g⟩ ∧
      (GitDriver.GetFile b 0 (GitDriver.Rename a b r).2).1 =
        .ok (C.length, C) := by
  intro d a b r m C fs1 mo o g hka hkb hfa hfb hpre hmk haa hab hmo ho hg
  set ka := cleanSegs (splitPath a) with hka_def
  set kb := cleanSegs (splitPath b) with hkb_def
  have hrn := fsRename_ok r.fs fs1 (splitPath a) (splitPath b) hka hkb _ hfa hfb hmk
  set fs2 := fs1.map (fun kv =>
    if kv.1.take ka.length = ka then (kb ++ kv.1.drop ka.length, kv.2) else kv)
    with hfs2_def
  have hR : GitDriver.Rename a b r =
      (.ok (), ⟨fs2, [], r.commits ++ [r.staged ++ [relOf a, relOf b]]⟩) := by
    rw [GitDriver.Rename, hrn]
    dsimp only
    rw [GitDriver.add, relFromRoot_abs a haa]
    dsimp only
    rw [stageCommit_abs b _ hab]
    dsimp only
    rw [List.append_assoc]
    rfl
  have hsrc : fsFind fs2 ka = none := rekey_find_source_none fs1 ka kb hpre
  have hdst : fsFind fs2 kb = some (.file m C) :=
    rekey_find_target fs1 ka kb (.file m C)
      (mkdirChain_find_some kb.dropLast r.fs fs1 [] ka (.file m C) hmk hfa)
      (by rw [mkdirChain_find_high kb.dropLast r.fs fs1 [] kb hmk
            (by simp only [List.length_nil, List.length_dropLast, Nat.zero_add]
                have : 0 < kb.length := List.length_pos.mpr hkb
                omega), hfb])
  refine ⟨by rw [hR], by rw [hR], ?_, ?_, ?_⟩
  · rw [hR]
    dsimp only
    rw [GitDriver.Stat, fsStat_missing fs2 (splitPath a) hka hsrc]
  · rw [hR]
    dsimp only
    rw [GitDriver.Stat, fsStat_found fs2 (splitPath b) (.file m C) hkb hdst]
    dsimp only
    rw [hmo]
    dsimp only
    rw [ho]
    dsimp only
    rw [hg]
    rfl
  · rw [hR]
    dsimp only
    rw [GitDriver.GetFile, fsStat_found fs2 (splitPath b) (.file m C) hkb hdst]
    dsimp only
    have hop : fsOpen fs2 (splitPath b) = .ok C := by
      simp only [fsOpen, hkb_def]
      rw [if_neg hkb, hdst]
    rw [hop]
    rfl

theorem rename_stages_both_then_source_gone_witness :
    (GitDriver.Rename "/a" "/b" repoA).1 = .ok () ∧
      (GitDriver.Rename "/a" "/b" repoA).2.commits = [["a", "b"]] ∧
      (GitDriver.Stat drv "/a" (GitDriver.Rename "/a" "/b" repoA).2).1 =
        .error notExistErr ∧
      (GitDriver.Stat drv "/b" (GitDriver.Rename "/a" "/b" repoA).2).1 =
        .ok ⟨⟨"b", 3, 7, false⟩, 438, "user", "group"⟩ ∧
      (GitDriver.GetFile "/b" 0 (GitDriver.Rename "/a" "/b" repoA).2).1 =
        .ok (3, [9, 9, 9]) := by
  have h := rename_stages_both_then_source_gone drv "/a" "/b" repoA 7 [9, 9, 9]
    repoA.fs 438 "user" "group" (by decide) (by decide) (by decide) (by decide)
    (by decide) (by decide) (by decide) (by decide) (by decide) (by decide)
    (by decide)
  refine ⟨h.1, ?_, h.2.2.1, ?_, h.2.2.2.2⟩
  · rw [h.2.1]
    rfl
  · rw [h.2.2.2.1]
    rfl

/-! ## ListDir lemmas -/

theorem statsOf_length (fs : FS) (path : String) :
    ∀ (files statList : List BackendInfo),
      statsOf fs path files = .ok statList → statList.length = files.length := by
  intro files
  induction files with
  | nil =>
    intro statList hs
    rw [statsOf] at hs
    cases hs
    rfl
  | cons f rest ih =>
    intro statList hs
    rw [statsOf] at hs
    cases hsc : GitDriver.statChild fs path f.name with
    | error e => rw [hsc] at hs; exact absurd hs (by simp)
    | ok i =>
      rw [hsc] at hs
      dsimp only at hs
      cases hrest : statsOf fs path rest with
      | error e => rw [hrest] at hs; exact absurd hs (by simp)
      | ok l =>
        rw [hrest] at hs
        dsimp only at hs
        cases hs
        simp [ih l hrest]

/-- The `ListDir` loop refines `cbFold` over the per-child metadata
records, when every per-child stat and both identity lookups succeed. -/
theorem listLoop_eq_cbFold {σ : Type} (d : GitDriver) (path : String) (fs : FS)
    (cb : FileInfo → σ → Except String σ) (o g : String)
    (ho : d.perm.getOwner path = .ok o) (hg : d.perm.getGroup path = .ok g) :
    ∀ (files statList : List BackendInfo) (s : σ),
      statsOf fs path files = .ok statList →
      GitDriver.listLoop d path fs cb files s =
        cbFold cb (statList.map (fun i => mkInfo i o g)) s := by
  intro files
  induction files with
  | nil =>
    intro statList s hs
    rw [statsOf] at hs
    cases hs
    rfl
  | cons f rest ih =>
    intro statList s hs
    rw [statsOf] at hs
    cases hsc : GitDriver.statChild fs path f.name with
    | error e => rw [hsc] at hs; exact absurd hs (by simp)
    | ok i =>
      rw [hsc] at hs
      dsimp only at hs
      cases hrest : statsOf fs path rest with
      | error e => rw [hrest] at hs; exact absurd hs (by simp)
      | ok l =>
        rw [hrest] at hs
        dsimp only at hs
        cases hs
        rw [GitDriver.listLoop, hsc]
        dsimp only
        rw [ho]
        dsimp only
        rw [hg]
        dsimp only
        rw [List.map_cons, cbFold]
        simp only [mkInfo]
        cases hcb : cb ⟨i, if i.isDir = true then Nat.lor i.mode osModeDir
            else i.mode, o, g⟩ s with
        | error e => rfl
        | ok s2 => exact ih l s2 hrest

theorem testBit31_lor_modeDir (m : Nat) :
    (Nat.lor m osModeDir).testBit 31 = true := by
  show (m ||| osModeDir).testBit 31 = true
  rw [Nat.testBit_lor]
  have h2 : osModeDir.testBit 31 = true := Nat.testBit_two_pow_self
  rw [h2, Bool.or_true]

/-- C7. The operation `ListDir` on a directory whose backend enumeration yields
`files` behaves as `cbFold` of the callback over one metadata record per
child, in the backend's enumeration order — so the callback is invoked
exactly `files.length` times when it never errors, and an error from the
callback stops the fold (and hence the listing) immediately, `cbFold`
invoking nothing after a failing entry.  If the per-iteration identity
lookup fails, the listing returns that error without ever invoking the
callback. -/
theorem listdir_invokes_callback_per_child :
    (∀ (σ : Type) (d : GitDriver) (path : String)
        (cb : FileInfo → σ → Except String σ) (s : σ) (r : Repo)
        (files statList : List BackendInfo) (o g : String),
      fsReadDir r.fs (splitPath path) = .ok files →
      d.perm.getOwner path = .ok o → d.perm.getGroup path = .ok g →
      statsOf r.fs path files = .ok statList →
      (GitDriver.ListDir d path cb s r).1 =
        cbFold cb (statList.map (fun i => mkInfo i o g)) s ∧
      statList.length = files.length) ∧
    (∀ (σ : Type) (d : GitDriver) (path : String)
        (cb : FileInfo → σ → Except String σ) (s : σ) (r : Repo)
        (f : BackendInfo) (rest : List BackendInfo) (i : BackendInfo) (e : String),
      fsReadDir r.fs (splitPath path) = .ok (f :: rest) →
      GitDriver.statChild r.fs path f.name = .ok i →
      d.perm.getOwner path = .error e →
      (GitDriver.ListDir d path cb s r).1 = .error e) := by
  constructor
  · intro σ d path cb s r files statList o g hrd ho hg hs
    refine ⟨?_, statsOf_length r.fs path files statList hs⟩
    rw [GitDriver.ListDir, hrd]
    exact listLoop_eq_cbFold d path r.fs cb o g ho hg files statList s hs
  · intro σ d path cb s r f rest i e hrd hsc ho
    rw [GitDriver.ListDir, hrd]
    dsimp only
    rw [GitDriver.listLoop, hsc]
    dsimp only
    rw [ho]

/-- C6. Whenever the backend reports a directory, the mode the
driver returns has the directory bit (bit 31, `os.ModeDir`) set,
whatever mode value the permission collaborator supplies: `Stat` ORs
`os.ModeDir` into the collaborator's mode, and every directory entry
produced by the `ListDir` loop ORs it into the backend mode. -/
theorem dir_mode_bit_always_set :
    (∀ (d : GitDriver) (p : String) (r : Repo) (f : BackendInfo) (mo : Nat)
        (o g : String),
      fsStat r.fs (splitPath p) = .ok f → f.isDir = true →
      d.perm.getMode p = .ok mo → d.perm.getOwner p = .ok o →
      d.perm.getGroup p = .ok g →
      (GitDriver.Stat d p r).1 = .ok ⟨f, Nat.lor mo osModeDir, o, g⟩ ∧
      (Nat.lor mo osModeDir).testBit 31 = true) ∧
    (∀ (σ : Type) (d : GitDriver) (path : String)
        (cb : FileInfo → σ → Except String σ) (s : σ) (r : Repo)
        (files statList : List BackendInfo) (o g : String),
      fsReadDir r.fs (splitPath path) = .ok files →
      d.perm.getOwner path = .ok o → d.perm.getGroup path = .ok g →
      statsOf r.fs path files = .ok statList →
      (GitDriver.ListDir d path cb s r).1 =
        cbFold cb (statList.map (fun i => mkInfo i o g)) s ∧
      (∀ fi ∈ statList.map (fun i => mkInfo i o g),
        fi.info.isDir = true → fi.mode.testBit 31 = true)) := by
  constructor
  · intro d p r f mo o g hst hd hmo ho hg
    constructor
    · rw [GitDriver.Stat, hst]
      dsimp only
      rw [hmo]
      dsimp only
      rw [ho]
      dsimp only
      rw [hg]
      dsimp only
      rw [if_pos hd]
    · exact testBit31_lor_modeDir mo
  · intro σ d path cb s r files statList o g hrd ho hg hs
    constructor
    · rw [GitDriver.ListDir, hrd]
      exact listLoop_eq_cbFold d path r.fs cb o g ho hg files statList s hs
    · intro fi hfi hdir
      obtain ⟨i, hi, rfl⟩ := List.mem_map.mp hfi
      simp only [mkInfo] at hdir ⊢
      rw [if_pos hdir]
      exact testBit31_lor_modeDir i.mode

/-- C8. Every metadata record the `ListDir` loop hands to the
callback carries the owner and the group obtained by querying the
permission collaborator with the listed directory's own path (the loop
calls `GetOwner(path)` / `GetGroup(path)`, not the child's path), so all
children share the parent-path lookup results `o` and `g`. -/
theorem listdir_owner_group_use_parent_path :
    ∀ (σ : Type) (d : GitDriver) (path : String)
      (cb : FileInfo → σ → Except String σ) (s : σ) (r : Repo)
      (files statList : List BackendInfo) (o g : String),
      fsReadDir r.fs (splitPath path) = .ok files →
      d.perm.getOwner path = .ok o → d.perm.getGroup path = .ok g →
      statsOf r.fs path files = .ok statList →
      (GitDriver.ListDir d path cb s r).1 =
        cbFold cb (statList.map (fun i => mkInfo i o g)) s ∧
      ∀ fi ∈ statList.map (fun i => mkInfo i o g),
        fi.owner = o ∧ fi.group = g := by
  intro σ d path cb s r files statList o g hrd ho hg hs
  constructor
  · rw [GitDriver.ListDir, hrd]
    exact listLoop_eq_cbFold d path r.fs cb o g ho hg files statList s hs
  · intro fi hfi
    obtain ⟨i, hi, rfl⟩ := List.mem_map.mp hfi
    exact ⟨rfl, rfl⟩

def repoL : Repo :=
  ⟨[(["d"], .dir 5), (["d", "x"], .file 6 [1]), (["d", "y"], .dir 9)], [], []⟩

def permBad : Perm := ⟨fun _ => .ok 0, fun _ => .error "boom", fun _ => .ok "grp"⟩

def drvBad : GitDriver := ⟨"/srv/repo", permBad⟩

theorem listdir_invokes_callback_per_child_witness :
    ((GitDriver.ListDir drv "/d" (fun _ n => .ok (n + 1)) 0 repoL).1 =
        cbFold (fun _ n => .ok (n + 1))
          (([⟨"x", 1, 6, false⟩, ⟨"y", 0, 9, true⟩] : List BackendInfo).map
            (fun i => mkInfo i "user" "group")) 0 ∧
      ([⟨"x", 1, 6, false⟩, ⟨"y", 0, 9, true⟩] : List BackendInfo).length =
        ([⟨"x", 1, 6, false⟩, ⟨"y", 0, 9, true⟩] : List BackendInfo).length) ∧
    (GitDriver.ListDir drvBad "/d" (fun _ n => .ok (n + 1)) 0 repoL).1 =
      .error "boom" :=
  ⟨listdir_invokes_callback_per_child.1 Nat drv "/d" (fun _ n => .ok (n + 1)) 0
      repoL [⟨"x", 1, 6, false⟩, ⟨"y", 0, 9, true⟩]
      [⟨"x", 1, 6, false⟩, ⟨"y", 0, 9, true⟩] "user" "group"
      (by decide) (by decide) (by decide) (by decide),
   listdir_invokes_callback_per_child.2 Nat drvBad "/d" (fun _ n => .ok (n + 1)) 0
      repoL ⟨"x", 1, 6, false⟩ [⟨"y", 0, 9, true⟩] ⟨"x", 1, 6, false⟩ "boom"
      (by decide) (by decide) (by decide)⟩

theorem dir_mode_bit_always_set_witness :
    ((GitDriver.Stat drv "/d" repoL).1 =
        .ok ⟨⟨"d", 0, 5, true⟩, Nat.lor 438 osModeDir, "user", "group"⟩ ∧
      (Nat.lor 438 osModeDir).testBit 31 = true) ∧
    ∀ fi ∈ ([⟨"x", 1, 6, false⟩, ⟨"y", 0, 9, true⟩] : List BackendInfo).map
        (fun i => mkInfo i "user" "group"),
      fi.info.isDir = true → fi.mode.testBit 31 = true :=
  ⟨dir_mode_bit_always_set.1 drv "/d" repoL ⟨"d", 0, 5, true⟩ 438 "user" "group"
      (by decide) (by decide) (by decide) (by decide) (by decide),
   (dir_mode_bit_always_set.2 Nat drv "/d" (fun _ n => .ok (n + 1)) 0 repoL
      [⟨"x", 1, 6, false⟩, ⟨"y", 0, 9, true⟩]
      [⟨"x", 1, 6, false⟩, ⟨"y", 0, 9, true⟩] "user" "group"
      (by decide) (by decide) (by decide) (by decide)).2⟩

theorem listdir_owner_group_use_parent_path_witness :
    (GitDriver.ListDir drv "/d" (fun _ n => .ok (n + 1)) 0 repoL).1 =
        cbFold (fun _ n => .ok (n + 1))
          (([⟨"x", 1, 6, false⟩, ⟨"y", 0, 9, true⟩] : List BackendInfo).map
            (fun i => mkInfo i "user" "group")) 0 ∧
      ∀ fi ∈ ([⟨"x", 1, 6, false⟩, ⟨"y", 0, 9, true⟩] : List BackendInfo).map
          (fun i => mkInfo i "user" "group"),
        fi.owner = "user" ∧ fi.group = "group" :=
  listdir_owner_group_use_parent_path Nat drv "/d" (fun _ n => .ok (n + 1)) 0
    repoL [⟨"x", 1, 6, false⟩, ⟨"y", 0, 9, true⟩]
    [⟨"x", 1, 6, false⟩, ⟨"y", 0, 9, true⟩] "user" "group"
    (by decide) (by decide) (by decide) (by decide)

end Giftp
